import Mathlib

/-!
Shallow embedding of the `staking-pool` contract (`src/staking-pool/src/lib.rs`).

Modelling conventions:
* `u128`/`u64` values are `Nat`.  The crate's release profile is not under
  `src/`; NEAR contract crates enable `overflow-checks`, and the repository's
  specification states that position amounts "never decrement below zero" and
  that an amount exceeding the remaining principal aborts the call, so every
  subtraction of the source (`-=`) is modelled by `subChecked`, which aborts
  (returns `none`) on underflow.  Additions stay plain `Nat` additions: no
  claim depends on wrap-around at `2 ^ 128`.
* `AccountId` is `String`.
* A panicking NEAR call reverts the whole receipt, so every mutating entry
  point is a function `Contract → ... → Option Contract` (plus the list of
  external fungible-token calls it issues); `none` models an abort with no
  state change.
* `HashMap<u128, HashMap<AccountId, T>>` fields that the source only ever
  accesses through `entry(..).or_default()` are modelled as total functions
  with the default value (`false`, `[]`, `0`): the source never distinguishes
  an absent entry from a default one for these maps.  `is_whitelisted` is the
  exception: the source reads it with `get(..).unwrap()`, where absence
  panics, so it is modelled with nested `Option`.
* `env::block_timestamp_ms()` and `env::signer_account_id()` are passed as
  explicit arguments (`now`, account ids); `assert_caller_allowed` becomes an
  explicit `is_owner : Bool` argument.
-/

namespace StakingPool

/-- Embeds `PoolType` of the source. -/
inductive PoolType where
  | Staking : PoolType
  | Loan : PoolType
deriving DecidableEq

/-- Embeds `TransactionType` of the source. -/
inductive TransactionType where
  | Staking : TransactionType
  | Borrow : TransactionType
deriving DecidableEq

/-- Embeds `UserInfo` of the source: one stake or borrow position. -/
structure UserInfo where
  transaction_type : TransactionType
  amount : Nat
  time : Nat
  paid_out : Nat
deriving DecidableEq

/-- Embeds `TokenInfo` of the source. -/
structure TokenInfo where
  token : String
  collateral_token : String
  decimals : Nat
  name : String
  symbol : String
deriving DecidableEq

/-- Embeds `DepositLimiters` of the source. -/
structure DepositLimiters where
  duration : Nat
  start_time : Nat
  end_time : Nat
  limit_per_user : Nat
  capacity : Nat
  max_utilisation : Nat
deriving DecidableEq

/-- Embeds `Funds` of the source. -/
structure Funds where
  balance : Nat
  loaned_balance : Nat
deriving DecidableEq

/-- Embeds `PoolInfo` of the source. -/
structure PoolInfo where
  pool_name : String
  pool_type : PoolType
  apy : Nat
  paused : Bool
  quarterly_payout : Bool
  unique_users : Nat
  token_info : TokenInfo
  funds : Funds
  deposit_limiters : DepositLimiters
deriving DecidableEq

/-- The contract state (`struct Contract` of the source). -/
structure Contract where
  pool_info : List PoolInfo
  is_pool_user : Nat → String → Bool
  is_whitelisted : Nat → Option (String → Option Bool)
  user_info : Nat → String → List UserInfo
  total_user_amount_staked : Nat → String → Nat
  total_user_amount_borrowed : Nat → String → Nat

/-- External fungible-token calls issued (fire-and-forget) by an operation. -/
inductive ExtCall where
  | ft_mint : String → String → Nat → ExtCall
  | ft_burn : String → String → Nat → ExtCall
  | ft_transfer : String → String → Nat → ExtCall
deriving DecidableEq

/-- Embeds `ONE_DAY` of the source (milliseconds). -/
def ONE_DAY : Nat := 86400000

/-- Embeds `QUARTER_DAY` of the source (90 days in milliseconds). -/
def QUARTER_DAY : Nat := 86400000 * 90

/-- Checked `u128`/`u64` subtraction: NEAR contracts abort on underflow. -/
def subChecked (a b : Nat) : Option Nat :=
  if b ≤ a then some (a - b) else none

/-- Embeds `Contract::new` of the source. -/
def new : Contract :=
  { pool_info := []
    is_pool_user := fun _ _ => false
    is_whitelisted := fun _ => none
    user_info := fun _ _ => []
    total_user_amount_staked := fun _ _ => 0
    total_user_amount_borrowed := fun _ _ => 0 }

/-- Write the position list of `(pid, a)`; all other state is unchanged. -/
def setUserList (s : Contract) (pid : Nat) (a : String) (l : List UserInfo) : Contract :=
  { s with user_info := fun p b => if p = pid ∧ b = a then l else s.user_info p b }

/-- Write the `is_pool_user` flag of `(pid, a)`; all other state is unchanged. -/
def setFlag (s : Contract) (pid : Nat) (a : String) (v : Bool) : Contract :=
  { s with is_pool_user := fun p b => if p = pid ∧ b = a then v else s.is_pool_user p b }

/-- Write `total_user_amount_staked` of `(pid, a)`. -/
def setStaked (s : Contract) (pid : Nat) (a : String) (v : Nat) : Contract :=
  { s with total_user_amount_staked :=
      fun p b => if p = pid ∧ b = a then v else s.total_user_amount_staked p b }

/-- Write `total_user_amount_borrowed` of `(pid, a)`. -/
def setBorrowed (s : Contract) (pid : Nat) (a : String) (v : Nat) : Contract :=
  { s with total_user_amount_borrowed :=
      fun p b => if p = pid ∧ b = a then v else s.total_user_amount_borrowed p b }

/-- Replace the pool record stored at index `pid`. -/
def setPool (s : Contract) (pid : Nat) (pool : PoolInfo) : Contract :=
  { s with pool_info := s.pool_info.set pid pool }

/-- Embeds `Contract::_calculate_percentage` of the source: `value * 100 / of`,
returning `0` when `of == 0`. -/
def _calculate_percentage (value of : Nat) : Nat :=
  if of = 0 then 0 else value * 100 / of

/-- Embeds `Contract::get_pool_utilisation` of the source: `0` for an empty pool,
otherwise the loaned percentage clamped to `100`. -/
def get_pool_utilisation (s : Contract) (pid : Nat) : Option Nat :=
  match s.pool_info[pid]? with
  | none => none
  | some pool =>
    if pool.funds.balance = 0 then some 0
    else
      let utilisation := _calculate_percentage pool.funds.loaned_balance pool.funds.balance
      some (if 100 < utilisation then 100 else utilisation)

/-- Embeds `Contract::calculate_interest` of the source.  Aborts when the pool or the
position does not exist or when `amount` exceeds the position's remaining
principal; returns `0` for a staking pool whose deposit window is still open;
otherwise simple interest over the elapsed time since the accrual anchor. -/
def calculate_interest (s : Contract) (user : String) (pid index amount now : Nat) :
    Option Nat :=
  match s.pool_info[pid]? with
  | none => none
  | some pool =>
    match (s.user_info pid user)[index]? with
    | none => none
    | some pos =>
      if ¬ (amount ≤ pos.amount) then none
      else if pool.pool_type = PoolType.Staking ∧ now < pool.deposit_limiters.end_time then
        some 0
      else
        match (if pool.pool_type = PoolType.Loan then get_pool_utilisation s pid
               else some 100) with
        | none => none
        | some utilisation =>
          let reward_calc_start_time :=
            if pool.pool_type = PoolType.Loan then pos.time
            else pool.deposit_limiters.end_time
          match subChecked now reward_calc_start_time with
          | none => none
          | some elapsed =>
            some (amount * pool.apy * utilisation * elapsed / (100 * 100 * 365 * ONE_DAY))

/-- Embeds `Contract::set_pool_paused` of the source. -/
def set_pool_paused (s : Contract) (is_owner : Bool) (pid : Nat) (flag : Bool) :
    Option Contract :=
  if ¬ (is_owner = true) then none
  else
    match s.pool_info[pid]? with
    | none => none
    | some pool => some (setPool s pid { pool with paused := flag })

/-- Embeds `Contract::whitelist` of the source.  Both `get_mut(..).unwrap()` calls on
`is_whitelisted` panic when the entry is absent. -/
def whitelist (s : Contract) (is_owner : Bool) (pid : Nat) (user : String) (status : Bool) :
    Option Contract :=
  if ¬ (is_owner = true) then none
  else
    match s.pool_info[pid]? with
    | none => none
    | some pool =>
      if ¬ (pool.pool_type = PoolType.Loan) then none
      else
        match s.is_whitelisted pid with
        | none => none
        | some wl =>
          match wl user with
          | none => none
          | some _ =>
            some { s with is_whitelisted :=
              fun p => if p = pid then some (fun a => if a = user then some status else wl a)
                       else s.is_whitelisted p }

/-- Embeds `Contract::create_pool` of the source: rejects a non-loan pool whose
`start_time` is not before `end_time`, then appends the pool with `balance`,
`loaned_balance` and `unique_users` forced to zero. -/
def create_pool (s : Contract) (is_owner : Bool) (pool_info : PoolInfo)
    (pool_type : PoolType) : Option Contract :=
  if ¬ (is_owner = true) then none
  else if ¬ (pool_type = PoolType.Loan) ∧
          ¬ (pool_info.deposit_limiters.start_time < pool_info.deposit_limiters.end_time) then
    none
  else
    some { s with pool_info := s.pool_info ++
      [{ pool_info with funds := { balance := 0, loaned_balance := 0 }, unique_users := 0 }] }

/-- Embeds `Contract::edit_pool` of the source: replaces the pool record but keeps
the live funds, `unique_users` and the underlying token account. -/
def edit_pool (s : Contract) (is_owner : Bool) (pid : Nat) (new_pool_info : PoolInfo) :
    Option Contract :=
  if ¬ (is_owner = true) then none
  else
    match s.pool_info[pid]? with
    | none => none
    | some pool =>
      some (setPool s pid
        { new_pool_info with
            funds := pool.funds
            unique_users := pool.unique_users
            token_info := { new_pool_info.token_info with token := pool.token_info.token } })

/-- Embeds `Contract::recover_token` of the source: an outbound transfer to the
contract's own account; the contract state is unchanged. -/
def recover_token (s : Contract) (is_owner : Bool) (current_account token : String)
    (amount : Nat) : Option (Contract × List ExtCall) :=
  if ¬ (is_owner = true) then none
  else some (s, [ExtCall.ft_transfer token current_account amount])

/-- Embeds `Contract::internal_deposit_and_stake` of the source. -/
def internal_deposit_and_stake (s : Contract) (staker : String) (pid : Nat)
    (token_id : String) (amount now : Nat) : Option (Contract × List ExtCall) :=
  match s.pool_info[pid]? with
  | none => none
  | some pool =>
    if pool.paused then none
    else if ¬ (pool.token_info.token = token_id) then none
    else if pool.pool_type = PoolType.Staking ∧
            ¬ (pool.deposit_limiters.start_time ≤ now ∧ now ≤ pool.deposit_limiters.end_time) then
      none
    else if ¬ (amount ≤ pool.deposit_limiters.limit_per_user) then none
    else if ¬ (pool.funds.balance + amount ≤ pool.deposit_limiters.capacity) then none
    else
      let wasUser := s.is_pool_user pid staker
      let pool' := { pool with
        funds := { pool.funds with balance := pool.funds.balance + amount }
        unique_users := if wasUser = true then pool.unique_users else pool.unique_users + 1 }
      let s1 := setUserList s pid staker
        (s.user_info pid staker ++ [{ transaction_type := TransactionType.Staking,
                                      amount := amount, time := now, paid_out := 0 }])
      let s2 := setStaked s1 pid staker (s.total_user_amount_staked pid staker + amount)
      let s3 := setPool s2 pid pool'
      let s4 := setFlag s3 pid staker true
      some (s4, [ExtCall.ft_mint pool.token_info.collateral_token staker amount])

/-- Embeds `Contract::emergency_withdraw` of the source: burns the claim token,
transfers the principal back, and decrements the targeted position in place.
No admission check, no reward settlement, no cleanup. -/
def emergency_withdraw (s : Contract) (account_id : String) (pid index amount now : Nat) :
    Option (Contract × List ExtCall) :=
  match s.pool_info[pid]? with
  | none => none
  | some pool =>
    let transaction := s.user_info pid account_id
    match transaction[index]? with
    | none => none
    | some pos =>
      match subChecked pos.amount amount with
      | none => none
      | some amt =>
        some (setUserList s pid account_id
                (transaction.set index { pos with amount := amt, time := now }),
              [ExtCall.ft_burn pool.token_info.collateral_token account_id amount,
               ExtCall.ft_transfer pool.token_info.token account_id amount])

/-- Embeds `Contract::transfer_rewards` of the source.  Note that the clamped
`_duration` is computed but never used afterwards (dead code in the source):
the reward is whatever `calculate_interest` returns for the current time. -/
def transfer_rewards (s : Contract) (receiver_id : String) (pid index duration amount now : Nat) :
    Option (Contract × List ExtCall × Nat) :=
  match calculate_interest s receiver_id pid index amount now with
  | none => none
  | some reward =>
    match s.pool_info[pid]? with
    | none => none
    | some pool =>
      let transaction := s.user_info pid receiver_id
      let _duration :=
        if pool.pool_type = PoolType.Staking ∧ pool.deposit_limiters.duration < duration then
          pool.deposit_limiters.duration
        else duration
      match transaction[index]? with
      | none => none
      | some pos =>
        if ¬ (amount ≤ pos.amount) then none
        else
          let claimable_rewards := if pos.paid_out < reward then reward - pos.paid_out else 0
          some (setUserList s pid receiver_id
                  (transaction.set index { pos with paid_out := pos.paid_out + claimable_rewards }),
                [ExtCall.ft_transfer pool.token_info.token receiver_id claimable_rewards],
                claimable_rewards)

/-- Common tail of `_delete_stake_if_empty`: once the (possibly swap-popped)
position list `txs` is known, clear the membership flag and decrement
`unique_users` when the list has become empty, else just store the list. -/
def delete_finish (s : Contract) (account_id : String) (pid : Nat) (pool : PoolInfo)
    (txs : List UserInfo) : Option Contract :=
  if txs.length = 0 then
    match subChecked pool.unique_users 1 with
    | none => none
    | some u =>
      some (setFlag
              (setUserList (setPool s pid { pool with unique_users := u }) pid account_id txs)
              pid account_id false)
  else some (setUserList s pid account_id txs)

/-- Embeds `Contract::_delete_stake_if_empty` of the source: swap-with-last removal
of a zeroed position, then membership-flag and `unique_users` cleanup when the
list becomes empty. -/
def _delete_stake_if_empty (s : Contract) (account_id : String) (pid index : Nat) :
    Option Contract :=
  match s.pool_info[pid]? with
  | none => none
  | some pool =>
    let transaction := s.user_info pid account_id
    match transaction[index]? with
    | none => none
    | some pos =>
      if pos.amount = 0 then
        match transaction.getLast? with
        | none => none
        | some lastPos =>
          delete_finish s account_id pid pool ((transaction.set index lastPos).dropLast)
      else delete_finish s account_id pid pool transaction

/-- The two time/utilisation asserts of the normal `withdraw` path: a staking
pool requires the lock (`end_time + duration`) to have elapsed; a loan pool
requires the remaining liquidity and the projected utilisation to stay inside
the ceiling. -/
def withdraw_admission (pool : PoolInfo) (amount now : Nat) : Bool :=
  if pool.pool_type = PoolType.Staking then
    decide (pool.deposit_limiters.end_time + pool.deposit_limiters.duration ≤ now)
  else
    decide (pool.funds.loaned_balance + amount ≤ pool.funds.balance ∧
            _calculate_percentage pool.funds.loaned_balance (pool.funds.balance - amount) <
              pool.deposit_limiters.max_utilisation)

/-- Embeds `Contract::withdraw` of the source: before `end_time` the call is routed
to `emergency_withdraw`; afterwards the normal path settles rewards, burns the
claim token, transfers the principal, and runs cleanup. -/
def withdraw (s : Contract) (account_id : String) (pid index amount now : Nat) :
    Option (Contract × List ExtCall) :=
  match s.pool_info[pid]? with
  | none => none
  | some temp_pool =>
    let temp_transaction := s.user_info pid account_id
    if now < temp_pool.deposit_limiters.end_time then
      emergency_withdraw s account_id pid index amount now
    else
      match temp_transaction[index]? with
      | none => none
      | some pos0 =>
        if ¬ (pos0.transaction_type = TransactionType.Staking) then none
        else if ¬ (amount ≤ pos0.amount) then none
        else if ¬ (withdraw_admission temp_pool amount now = true) then none
        else
          match transfer_rewards s account_id pid index
                  (now - temp_pool.deposit_limiters.end_time) amount now with
          | none => none
          | some (s1, eff1, _claimable) =>
            match s1.pool_info[pid]? with
            | none => none
            | some pool =>
              match (s1.user_info pid account_id)[index]? with
              | none => none
              | some pos =>
                match subChecked pos.amount amount,
                      subChecked (s1.total_user_amount_staked pid account_id) amount,
                      subChecked pool.funds.balance amount with
                | some amt, some staked, some bal =>
                  let s2 := setUserList s1 pid account_id
                    ((s1.user_info pid account_id).set index { pos with amount := amt, time := now })
                  let s3 := setStaked s2 pid account_id staked
                  let s4 := setPool s3 pid { pool with funds := { pool.funds with balance := bal } }
                  match _delete_stake_if_empty s4 account_id pid index with
                  | none => none
                  | some s5 =>
                    some (s5, eff1 ++
                      [ExtCall.ft_burn pool.token_info.collateral_token account_id amount,
                       ExtCall.ft_transfer pool.token_info.token account_id amount])
                | _, _, _ => none

/-- Embeds `Contract::borrow` of the source.  The very first statement reads the
caller's whitelist entry with `unwrap`, so an absent entry panics. -/
def borrow (s : Contract) (account_id : String) (pid amount now : Nat) :
    Option (Contract × List ExtCall) :=
  match s.is_whitelisted pid with
  | none => none
  | some wl =>
    match wl account_id with
    | none => none
    | some status =>
      if ¬ (status = true) then none
      else
        match s.pool_info[pid]? with
        | none => none
        | some temp_pool =>
          let projected_utilisation :=
            _calculate_percentage (temp_pool.funds.loaned_balance + amount)
              temp_pool.funds.balance
          if ¬ (temp_pool.pool_type = PoolType.Loan) then none
          else if temp_pool.paused then none
          else if ¬ (0 < temp_pool.funds.balance) then none
          else if ¬ (projected_utilisation < temp_pool.deposit_limiters.max_utilisation) then none
          else
            let wasUser := s.is_pool_user pid account_id
            let pool' := { temp_pool with
              funds := { temp_pool.funds with
                loaned_balance := temp_pool.funds.loaned_balance + amount }
              unique_users :=
                if wasUser = true then temp_pool.unique_users else temp_pool.unique_users + 1 }
            let s1 := setUserList s pid account_id
              (s.user_info pid account_id ++ [{ transaction_type := TransactionType.Borrow,
                                                amount := amount, time := now, paid_out := 0 }])
            let s2 := setBorrowed s1 pid account_id
              (s.total_user_amount_borrowed pid account_id + amount)
            let s3 := setPool s2 pid pool'
            let s4 := setFlag s3 pid account_id true
            some (s4, [ExtCall.ft_transfer temp_pool.token_info.token account_id amount])

/-- Embeds `Contract::internal_repay` of the source. -/
def internal_repay (s : Contract) (borrower : String) (pid index : Nat) (token_id : String)
    (amount repay_amount now : Nat) : Option Contract :=
  match calculate_interest s borrower pid index repay_amount now with
  | none => none
  | some interest =>
    match s.pool_info[pid]? with
    | none => none
    | some pool =>
      let transaction := s.user_info pid borrower
      match transaction[index]? with
      | none => none
      | some pos =>
        if ¬ (pool.token_info.token = token_id) then none
        else if ¬ (pool.pool_type = PoolType.Loan) then none
        else if ¬ (pos.transaction_type = TransactionType.Borrow) then none
        else if ¬ (repay_amount ≤ pos.amount) then none
        else if ¬ (repay_amount + interest ≤ amount) then none
        else
          match subChecked pos.amount repay_amount,
                subChecked (s.total_user_amount_borrowed pid borrower) amount,
                subChecked pool.funds.loaned_balance amount with
          | some amt, some borrowed, some loaned =>
            let s1 := setUserList s pid borrower
              (transaction.set index { pos with amount := amt, time := now })
            let s2 := setBorrowed s1 pid borrower borrowed
            let s3 := setPool s2 pid
              { pool with funds := { pool.funds with loaned_balance := loaned } }
            _delete_stake_if_empty s3 borrower pid index
          | _, _, _ => none

/-- The clamp of `claim_quarterly_payout`: `time_diff` is capped at the
pool's configured accrual duration. -/
def clamp_duration (pool : PoolInfo) (diff : Nat) : Nat :=
  if pool.deposit_limiters.duration < diff then pool.deposit_limiters.duration else diff

/-- Embeds `Contract::claim_quarterly_payout` of the source. -/
def claim_quarterly_payout (s : Contract) (account_id : String) (pid index now : Nat) :
    Option (Contract × List ExtCall) :=
  match s.pool_info[pid]? with
  | none => none
  | some pool =>
    let transaction := s.user_info pid account_id
    if ¬ (pool.quarterly_payout = true) then none
    else if ¬ (pool.pool_type = PoolType.Staking) then none
    else if ¬ (pool.deposit_limiters.end_time < now) then none
    else
      let time_diff := clamp_duration pool (now - pool.deposit_limiters.end_time)
      if ¬ (0 < time_diff / QUARTER_DAY) then none
      else
        match transaction[index]? with
        | none => none
        | some pos =>
          match transfer_rewards s account_id pid index time_diff pos.amount now with
          | none => none
          | some (s1, eff, _claimable) => some (s1, eff)

/-- Split a character list at every occurrence of `sep` (the accumulator holds
the current fragment reversed); embeds Rust's `str::split`. -/
def splitAux (sep : Char) : List Char → List Char → List String
  | [], acc => [String.mk acc.reverse]
  | c :: rest, acc =>
    if c = sep then String.mk acc.reverse :: splitAux sep rest []
    else splitAux sep rest (c :: acc)

/-- Rust's `msg.split(sep)`: always returns at least one fragment. -/
def splitOnChar (sep : Char) (s : String) : List String :=
  splitAux sep s.toList []

/-- Horner accumulation of a decimal digit list; `none` on a non-digit. -/
def digitsToNat : List Char → Nat → Option Nat
  | [], acc => some acc
  | c :: rest, acc =>
    if c.isDigit then digitsToNat rest (acc * 10 + (c.toNat - 48)) else none

/-- Rust's `str::trim().parse::<uN>()`: surrounding whitespace is removed, an
optional leading `+` is accepted, at least one digit is required, and a value
of `2 ^ width` or more is an overflow error (`none`). -/
def rustParseUInt (width : Nat) (s : String) : Option Nat :=
  let t := ((s.toList.dropWhile Char.isWhitespace).reverse.dropWhile Char.isWhitespace).reverse
  let ds := match t with
    | c :: rest => if c = ('+') then rest else t
    | [] => []
  match ds with
  | [] => none
  | _ =>
    match digitsToNat ds 0 with
    | none => none
    | some v => if v < 2 ^ width then some v else none

/-- Embeds `ft_on_transfer` of the source (the `FungibleTokenReceiver` impl): parses
the colon-delimited command of the attached message and dispatches to the
stake flow (result `1`) or the repay flow (result `2`). -/
def ft_on_transfer (s : Contract) (sender_id : String) (amount : Nat) (msg token_id : String)
    (now : Nat) : Option (Contract × List ExtCall × Nat) :=
  let messages := splitOnChar (':') msg
  match messages[1]? with
  | none => none
  | some m1 =>
    match rustParseUInt 128 m1 with
    | none => none
    | some pid =>
      match messages[0]? with
      | none => none
      | some m0 =>
        if m0 = "staking" then
          match internal_deposit_and_stake s sender_id pid token_id amount now with
          | none => none
          | some (s1, eff) => some (s1, eff, 1)
        else if m0 = "borrow" then
          match messages[2]? with
          | none => none
          | some m2 =>
            match rustParseUInt 32 m2 with
            | none => none
            | some index =>
              match messages[3]? with
              | none => none
              | some m3 =>
                match rustParseUInt 128 m3 with
                | none => none
                | some repay_amount =>
                  match internal_repay s sender_id pid index token_id amount repay_amount now with
                  | none => none
                  | some s1 => some (s1, [], 2)
        else none

/-- One public mutating entry point of the contract, with arbitrary caller,
arguments and block timestamp.  `pool_info` (the paginated views), the
interest view and `total_pools` are read-only and change no state;
`recover_token` issues a transfer but also leaves the state unchanged. -/
inductive Step : Contract → Contract → Prop where
  | step_set_paused (s : Contract) (o : Bool) (pid : Nat) (flag : Bool) (s1 : Contract)
      (h : set_pool_paused s o pid flag = some s1) : Step s s1
  | step_whitelist (s : Contract) (o : Bool) (pid : Nat) (user : String) (status : Bool)
      (s1 : Contract) (h : whitelist s o pid user status = some s1) : Step s s1
  | step_create_pool (s : Contract) (o : Bool) (pi : PoolInfo) (pt : PoolType) (s1 : Contract)
      (h : create_pool s o pi pt = some s1) : Step s s1
  | step_edit_pool (s : Contract) (o : Bool) (pid : Nat) (pi : PoolInfo) (s1 : Contract)
      (h : edit_pool s o pid pi = some s1) : Step s s1
  | step_recover_token (s : Contract) (o : Bool) (cur tok : String) (amount : Nat)
      (r : Contract × List ExtCall) (h : recover_token s o cur tok amount = some r) :
      Step s r.1
  | step_emergency_withdraw (s : Contract) (a : String) (pid index amount now : Nat)
      (r : Contract × List ExtCall)
      (h : emergency_withdraw s a pid index amount now = some r) : Step s r.1
  | step_withdraw (s : Contract) (a : String) (pid index amount now : Nat)
      (r : Contract × List ExtCall) (h : withdraw s a pid index amount now = some r) :
      Step s r.1
  | step_borrow (s : Contract) (a : String) (pid amount now : Nat)
      (r : Contract × List ExtCall) (h : borrow s a pid amount now = some r) : Step s r.1
  | step_claim_quarterly (s : Contract) (a : String) (pid index now : Nat)
      (r : Contract × List ExtCall)
      (h : claim_quarterly_payout s a pid index now = some r) : Step s r.1
  | step_ft_on_transfer (s : Contract) (sender : String) (amount : Nat) (msg tok : String)
      (now : Nat) (r : Contract × List ExtCall × Nat)
      (h : ft_on_transfer s sender amount msg tok now = some r) : Step s r.1

/-- States reachable from `Contract::new` by any sequence of contract calls. -/
def Reachable (s : Contract) : Prop :=
  Relation.ReflTransGen Step new s

/-- The inductive invariant of reachable contract states: the whitelist map is
never populated, every stored position is a staking one, no pool has any
outstanding loan, and the membership flags, position lists and `unique_users`
counters agree. -/
structure Inv (s : Contract) : Prop where
  wl_none : ∀ pid, s.is_whitelisted pid = none
  all_staking : ∀ pid a p, p ∈ s.user_info pid a → p.transaction_type = TransactionType.Staking
  loaned_zero : ∀ pool, pool ∈ s.pool_info → pool.funds.loaned_balance = 0
  flag_iff : ∀ pid a, s.is_pool_user pid a = true ↔ ¬ s.user_info pid a = []
  flag_valid : ∀ pid a, s.is_pool_user pid a = true → pid < s.pool_info.length
  users_fin : ∀ pid, Set.Finite {a : String | s.is_pool_user pid a = true}
  unique_card : ∀ pid pool, s.pool_info[pid]? = some pool →
    pool.unique_users = Set.ncard {a : String | s.is_pool_user pid a = true}

def w5pool : PoolInfo :=
  { pool_name := "sp", pool_type := PoolType.Staking, apy := 1000, paused := false,
    quarterly_payout := false, unique_users := 1,
    token_info := { token := "tokA", collateral_token := "ctok", decimals := 0,
                    name := "t", symbol := "T" },
    funds := { balance := 50, loaned_balance := 0 },
    deposit_limiters := { duration := 500, start_time := 0, end_time := 1000,
                          limit_per_user := 100, capacity := 1000, max_utilisation := 80 } }

def w5state : Contract :=
  { new with
      pool_info := [w5pool]
      user_info := fun p a =>
        if p = 0 ∧ a = "alice" then
          [{ transaction_type := TransactionType.Staking, amount := 50, time := 0, paid_out := 0 }]
        else [] }

def loanPoolA : PoolInfo :=
  { pool_name := "lp", pool_type := PoolType.Loan, apy := 1000, paused := false,
    quarterly_payout := false, unique_users := 1,
    token_info := { token := "tok", collateral_token := "ctok", decimals := 0,
                    name := "t", symbol := "T" },
    funds := { balance := 0, loaned_balance := 100 },
    deposit_limiters := { duration := 0, start_time := 0, end_time := 0,
                          limit_per_user := 100, capacity := 1000, max_utilisation := 80 } }

def loanStateA : Contract :=
  { new with
      pool_info := [loanPoolA]
      user_info := fun p a =>
        if p = 0 ∧ a = "bob" then
          [{ transaction_type := TransactionType.Borrow, amount := 100, time := 0, paid_out := 0 }]
        else []
      total_user_amount_borrowed := fun p a => if p = 0 ∧ a = "bob" then 100 else 0 }

def c3pool : PoolInfo :=
  { pool_name := "cap", pool_type := PoolType.Staking, apy := 36500, paused := false,
    quarterly_payout := false, unique_users := 1,
    token_info := { token := "tokC", collateral_token := "ctokC", decimals := 0,
                    name := "t", symbol := "T" },
    funds := { balance := 86400000, loaned_balance := 0 },
    deposit_limiters := { duration := 86400000, start_time := 0, end_time := 86400000,
                          limit_per_user := 86400000, capacity := 86400000,
                          max_utilisation := 80 } }

def c3state : Contract :=
  { new with
      pool_info := [c3pool]
      user_info := fun p a =>
        if p = 0 ∧ a = "alice" then
          [{ transaction_type := TransactionType.Staking, amount := 86400000, time := 0,
             paid_out := 0 }]
        else [] }

def badPool : PoolInfo :=
  { pool_name := "bad", pool_type := PoolType.Staking, apy := 1, paused := false,
    quarterly_payout := false, unique_users := 9,
    token_info := { token := "tokB", collateral_token := "ctokB", decimals := 0,
                    name := "t", symbol := "T" },
    funds := { balance := 7, loaned_balance := 7 },
    deposit_limiters := { duration := 0, start_time := 5, end_time := 5,
                          limit_per_user := 0, capacity := 0, max_utilisation := 0 } }

def reachPool : PoolInfo :=
  { w5pool with funds := { balance := 0, loaned_balance := 0 }, unique_users := 0 }

def reachState : Contract := { new with pool_info := [reachPool] }

def c4r2 : Option (Contract × List ExtCall × Nat) :=
  ft_on_transfer reachState ("alice") 50 ("staking:0") ("tokA") 0

def c4s2 : Contract := (c4r2.getD (new, [], 0)).1

def c4r3 : Option (Contract × List ExtCall) := emergency_withdraw c4s2 ("alice") 0 0 50 500

def c4s3 : Contract := (c4r3.getD (new, [])).1

end StakingPool

namespace StakingPool

/-- C5: `calculate_interest(user, pid, index, amount)` returns `0` when the
pool is staking-type and the current time is before `end_time`; otherwise it
returns `amount * apy * utilisation * elapsed / (100 * 100 * 365 * ONE_DAY)`
in exact integer arithmetic, where utilisation is `100` for staking pools and
the pool's current (clamped) utilisation percentage for loan pools, and
elapsed is measured from `end_time` for staking pools and from the position's
own `time` field for loan pools; and it aborts when `amount` exceeds the
position's remaining principal. -/
theorem calculate_interest_spec (s : Contract) (user : String) (pid index amount now : Nat)
    (pool : PoolInfo) (pos : UserInfo)
    (hpool : s.pool_info[pid]? = some pool)
    (hpos : (s.user_info pid user)[index]? = some pos) :
    (amount ≤ pos.amount →
      ((pool.pool_type = PoolType.Staking ∧ now < pool.deposit_limiters.end_time →
          calculate_interest s user pid index amount now = some 0) ∧
       (¬ (pool.pool_type = PoolType.Staking ∧ now < pool.deposit_limiters.end_time) →
        (if pool.pool_type = PoolType.Loan then pos.time else pool.deposit_limiters.end_time) ≤ now →
          calculate_interest s user pid index amount now =
            some (amount * pool.apy *
              (if pool.pool_type = PoolType.Loan then
                 (if pool.funds.balance = 0 then 0
                  else min (pool.funds.loaned_balance * 100 / pool.funds.balance) 100)
               else 100) *
              (now - (if pool.pool_type = PoolType.Loan then pos.time
                      else pool.deposit_limiters.end_time)) /
              (100 * 100 * 365 * ONE_DAY))))) ∧
    (pos.amount < amount → calculate_interest s user pid index amount now = none) := by
  unfold calculate_interest get_pool_utilisation _calculate_percentage subChecked
  rw [hpool, hpos]
  refine ⟨fun hle => ⟨fun hwin => by simp [hle, hwin], fun hnwin hanchor => ?_⟩,
          fun hgt => by simp [Nat.not_le.mpr hgt]⟩
  rcases hty : pool.pool_type with _ | _
  · have hnow : ¬ now < pool.deposit_limiters.end_time := fun hc => hnwin ⟨hty, hc⟩
    rw [hty] at hanchor
    have ha : pool.deposit_limiters.end_time ≤ now := by simpa using hanchor
    simp only [hty]
    simp [hle, hnow, ha]
  · rw [hty] at hanchor
    have ha : pos.time ≤ now := by simpa using hanchor
    simp only [hty]
    rcases hb : pool.funds.balance with _ | n
    · simp [hle, hpool, hb, ha]
    · have hmin : (if 100 < pool.funds.loaned_balance * 100 / (n + 1) then 100
          else pool.funds.loaned_balance * 100 / (n + 1)) =
          min (pool.funds.loaned_balance * 100 / (n + 1)) 100 := by
        rw [Nat.min_def]; split <;> split <;> omega
    
      simp [hle, hpool, hb, ha, hmin]


/-- Helper: the exact result of a successful `emergency_withdraw`. -/
theorem emergency_withdraw_eq (s : Contract) (account_id : String)
    (pid index amount now : Nat) (pool : PoolInfo) (pos : UserInfo)
    (hpool : s.pool_info[pid]? = some pool)
    (hpos : (s.user_info pid account_id)[index]? = some pos)
    (hamt : amount ≤ pos.amount) :
    emergency_withdraw s account_id pid index amount now =
      some (setUserList s pid account_id
              ((s.user_info pid account_id).set index
                { pos with amount := pos.amount - amount, time := now }),
            [ExtCall.ft_burn pool.token_info.collateral_token account_id amount,
             ExtCall.ft_transfer pool.token_info.token account_id amount]) := by
  unfold emergency_withdraw subChecked
  simp only [hpool, hpos, if_pos hamt]

/-- C10: `emergency_withdraw(pid, index, amount)` modifies only the targeted
position, whose `amount` is decremented by `amount` and whose `time` is set
to now: the result differs from the input state only in that one position
list (the record update keeps `pool_info`, `is_pool_user`, `is_whitelisted`
and both per-account totals of `s`); the list keeps its length, so a position
zeroed out is not removed; all other indices are unchanged; and the claim
token burn plus the principal transfer are the only external calls. -/
theorem emergency_withdraw_frame (s : Contract) (account_id : String)
    (pid index amount now : Nat) (pool : PoolInfo) (pos : UserInfo)
    (hpool : s.pool_info[pid]? = some pool)
    (hpos : (s.user_info pid account_id)[index]? = some pos)
    (hamt : amount ≤ pos.amount) :
    emergency_withdraw s account_id pid index amount now =
      some (setUserList s pid account_id
              ((s.user_info pid account_id).set index
                { pos with amount := pos.amount - amount, time := now }),
            [ExtCall.ft_burn pool.token_info.collateral_token account_id amount,
             ExtCall.ft_transfer pool.token_info.token account_id amount]) ∧
    ((s.user_info pid account_id).set index
        { pos with amount := pos.amount - amount, time := now }).length =
      (s.user_info pid account_id).length ∧
    (∀ j, ¬ j = index →
      ((s.user_info pid account_id).set index
          { pos with amount := pos.amount - amount, time := now })[j]? =
        (s.user_info pid account_id)[j]?) := by
  refine ⟨emergency_withdraw_eq s account_id pid index amount now pool pos hpool hpos hamt,
    List.length_set .., fun j hj => ?_⟩
  rw [List.getElem?_set_ne (fun h => hj h.symm)]

/-- C6: a `withdraw(pid, index, amount)` call made strictly before the pool's
`end_time` is routed to the emergency path: the result is exactly the
emergency-withdraw state (position decremented by `amount`, `time` reset,
`paid_out` untouched, no reward settlement) together with the claim-token
burn and the principal transfer for `amount`.  No hypothesis about the pool
type, pause flag, lock duration, per-user limit or utilisation is needed:
none of those checks runs on this path. -/
theorem withdraw_emergency_route (s : Contract) (account_id : String)
    (pid index amount now : Nat) (pool : PoolInfo) (pos : UserInfo)
    (hpool : s.pool_info[pid]? = some pool)
    (hnow : now < pool.deposit_limiters.end_time)
    (hpos : (s.user_info pid account_id)[index]? = some pos)
    (hamt : amount ≤ pos.amount) :
    withdraw s account_id pid index amount now =
      some (setUserList s pid account_id
              ((s.user_info pid account_id).set index
                { pos with amount := pos.amount - amount, time := now }),
            [ExtCall.ft_burn pool.token_info.collateral_token account_id amount,
             ExtCall.ft_transfer pool.token_info.token account_id amount]) := by
  unfold withdraw
  simp only [hpool, if_pos hnow]
  exact emergency_withdraw_eq s account_id pid index amount now pool pos hpool hpos hamt


/-- C9: `create_pool` aborts (returns `none`, modelling the panic that leaves
the pool sequence unchanged) when the supplied pool type is not `Loan` and
`start_time ≥ end_time`; on success it appends exactly one pool whose
`balance`, `loaned_balance` and `unique_users` are zero regardless of the
values supplied in the input. -/
theorem create_pool_spec (s : Contract) (o : Bool) (info : PoolInfo) (pt : PoolType) :
    (¬ pt = PoolType.Loan →
     info.deposit_limiters.end_time ≤ info.deposit_limiters.start_time →
       create_pool s o info pt = none) ∧
    (∀ s1, create_pool s o info pt = some s1 →
       s1.pool_info = s.pool_info ++
         [{ info with funds := { balance := 0, loaned_balance := 0 }, unique_users := 0 }] ∧
       s1.pool_info.length = s.pool_info.length + 1) := by
  constructor
  · intro hpt hse
    unfold create_pool
    by_cases ho : o = true
    · rw [if_neg (not_not_intro ho), if_pos ⟨hpt, Nat.not_lt.mpr hse⟩]
    · rw [if_pos ho]
  · intro s1 h
    unfold create_pool at h
    split at h
    · exact Option.noConfusion h
    · split at h
      · exact Option.noConfusion h
      · cases h
        exact ⟨rfl, by simp⟩

/-- C7 (amended): `internal_repay` succeeds only if the position is a
`Borrow` transaction, `repay_amount` does not exceed the remaining principal,
and the incoming `amount` covers `repay_amount` plus the interest on it
(necessity); and under those conditions together with the further conditions
the source imposes — the supplied token matches the pool's token, the pool is
`Loan`-typed, and the pool's `loaned_balance` and the borrower's borrowed
total are at least `amount` (the source subtracts the full incoming `amount`
from both) — the position's principal decreases by exactly `repay_amount`
before cleanup runs. -/
theorem internal_repay_spec (s : Contract) (borrower : String) (pid index : Nat)
    (token_id : String) (amount repay_amount now : Nat) (pool : PoolInfo) (pos : UserInfo)
    (interest : Nat)
    (hpool : s.pool_info[pid]? = some pool)
    (hpos : (s.user_info pid borrower)[index]? = some pos)
    (hint : calculate_interest s borrower pid index repay_amount now = some interest) :
    (∀ s1, internal_repay s borrower pid index token_id amount repay_amount now = some s1 →
       pos.transaction_type = TransactionType.Borrow ∧ repay_amount ≤ pos.amount ∧
       repay_amount + interest ≤ amount) ∧
    (pool.token_info.token = token_id → pool.pool_type = PoolType.Loan →
     pos.transaction_type = TransactionType.Borrow → repay_amount ≤ pos.amount →
     repay_amount + interest ≤ amount →
     amount ≤ s.total_user_amount_borrowed pid borrower →
     amount ≤ pool.funds.loaned_balance →
       internal_repay s borrower pid index token_id amount repay_amount now =
         _delete_stake_if_empty
           (setPool
             (setBorrowed
               (setUserList s pid borrower
                 ((s.user_info pid borrower).set index
                   { pos with amount := pos.amount - repay_amount, time := now }))
               pid borrower (s.total_user_amount_borrowed pid borrower - amount))
             pid { pool with funds := { pool.funds with
                     loaned_balance := pool.funds.loaned_balance - amount } })
           borrower pid index ∧
       ((s.user_info pid borrower).set index
           { pos with amount := pos.amount - repay_amount, time := now })[index]? =
         some { pos with amount := pos.amount - repay_amount, time := now }) := by
  constructor
  · intro s1 h
    unfold internal_repay at h
    simp only [hint, hpool, hpos] at h
    split at h
    · exact Option.noConfusion h
    next h1 =>
    split at h
    · exact Option.noConfusion h
    next h2 =>
    split at h
    · exact Option.noConfusion h
    next h3 =>
    split at h
    · exact Option.noConfusion h
    next h4 =>
    split at h
    · exact Option.noConfusion h
    next h5 =>
    exact ⟨not_not.mp h3, not_not.mp h4, not_not.mp h5⟩
  · intro h1 h2 h3 h4 h5 h6 h7
    constructor
    · unfold internal_repay subChecked
      simp only [hint, hpool, hpos, if_neg (not_not_intro h1), if_neg (not_not_intro h2),
        if_neg (not_not_intro h3), if_neg (not_not_intro h4), if_neg (not_not_intro h5),
        if_pos h4, if_pos h6, if_pos h7]
    · exact List.getElem?_set_eq_of_lt _ (List.getElem?_eq_some.mp hpos).1


/-- C8: `ft_on_transfer` splits the attached message on colons; a
`staking` prefix with a numeric pool id runs the deposit-and-stake flow and
returns result code 1; a `borrow` prefix with numeric pool id, position index
and repay amount runs the repay flow and returns result code 2; any other
prefix aborts the call; and any numeric field that fails to parse as an
integer aborts the call. -/
theorem ft_on_transfer_spec (s : Contract) (sender : String) (amount : Nat)
    (msg token_id : String) (now : Nat) :
    (∀ m1 pid, (splitOnChar (':') msg)[0]? = some ("staking") →
       (splitOnChar (':') msg)[1]? = some m1 → rustParseUInt 128 m1 = some pid →
       ft_on_transfer s sender amount msg token_id now =
         (internal_deposit_and_stake s sender pid token_id amount now).map
           (fun r => (r.1, r.2, 1))) ∧
    (∀ m1 m2 m3 pid index repay_amount,
       (splitOnChar (':') msg)[0]? = some ("borrow") →
       (splitOnChar (':') msg)[1]? = some m1 → rustParseUInt 128 m1 = some pid →
       (splitOnChar (':') msg)[2]? = some m2 → rustParseUInt 32 m2 = some index →
       (splitOnChar (':') msg)[3]? = some m3 → rustParseUInt 128 m3 = some repay_amount →
       ft_on_transfer s sender amount msg token_id now =
         (internal_repay s sender pid index token_id amount repay_amount now).map
           (fun s1 => (s1, [], 2))) ∧
    (∀ m0, (splitOnChar (':') msg)[0]? = some m0 → ¬ m0 = "staking" → ¬ m0 = "borrow" →
       ft_on_transfer s sender amount msg token_id now = none) ∧
    (∀ m1, (splitOnChar (':') msg)[1]? = some m1 → rustParseUInt 128 m1 = none →
       ft_on_transfer s sender amount msg token_id now = none) ∧
    (∀ m2, (splitOnChar (':') msg)[0]? = some ("borrow") →
       (splitOnChar (':') msg)[2]? = some m2 → rustParseUInt 32 m2 = none →
       ft_on_transfer s sender amount msg token_id now = none) ∧
    (∀ m3 m2 index, (splitOnChar (':') msg)[0]? = some ("borrow") →
       (splitOnChar (':') msg)[2]? = some m2 → rustParseUInt 32 m2 = some index →
       (splitOnChar (':') msg)[3]? = some m3 → rustParseUInt 128 m3 = none →
       ft_on_transfer s sender amount msg token_id now = none) := by
  refine ⟨?_, ?_, ?_, ?_, ?_, ?_⟩
  · intro m1 pid h0 h1 hp
    unfold ft_on_transfer
    simp only [h0, h1, hp, if_pos rfl]
    cases hd : internal_deposit_and_stake s sender pid token_id amount now with
    | none => rfl
    | some r => cases r; rfl
  · intro m1 m2 m3 pid index repay_amount h0 h1 hp h2 hi h3 hr
    unfold ft_on_transfer
    simp only [h0, h1, hp, h2, hi, h3, hr]
    norm_num
    cases hd : internal_repay s sender pid index token_id amount repay_amount now <;> rfl
  · intro m0 h0 hs hb
    unfold ft_on_transfer
    cases h1 : (splitOnChar (':') msg)[1]? with
    | none => simp only [h1]
    | some m1 =>
      cases hp : rustParseUInt 128 m1 with
      | none => simp only [h1, hp]
      | some pid => simp only [h1, hp, h0, if_neg hs, if_neg hb]
  · intro m1 h1 hp
    unfold ft_on_transfer
    simp only [h1, hp]
  · intro m2 h0 h2 hp2
    unfold ft_on_transfer
    cases h1 : (splitOnChar (':') msg)[1]? with
    | none => simp only [h1]
    | some m1 =>
      cases hp : rustParseUInt 128 m1 with
      | none => simp only [h1, hp]
      | some pid =>
        simp only [h1, hp, h0, h2, hp2]
        norm_num
        intro hc
        exact absurd hc (by decide)
  · intro m3 m2 index h0 h2 hi h3 hp3
    unfold ft_on_transfer
    cases h1 : (splitOnChar (':') msg)[1]? with
    | none => simp only [h1]
    | some m1 =>
      cases hp : rustParseUInt 128 m1 with
      | none => simp only [h1, hp]
      | some pid =>
        simp only [h1, hp, h0, h2, hi, h3, hp3]
        norm_num
        intro hc
        exact absurd hc (by decide)








/-- C5 witness: the theorem applied at a concrete staking pool, one position
of 50, at time `end_time + duration`. -/
theorem calculate_interest_spec_witness :
    calculate_interest w5state ("alice") 0 0 50 1500 = some 0 :=
  ((calculate_interest_spec w5state ("alice") 0 0 50 1500 w5pool
      { transaction_type := TransactionType.Staking, amount := 50, time := 0, paid_out := 0 }
      rfl rfl).1 (by decide)).2 (by decide) (by decide)

/-- C10 witness: the theorem applied at a concrete staking pool with a
position of 50 and a partial emergency withdrawal of 20. -/
theorem emergency_withdraw_frame_witness :
    (emergency_withdraw w5state ("alice") 0 0 20 999).map
        (fun r => ((r.1.user_info 0 ("alice"))[0]?.map (fun p => (p.amount, p.time, p.paid_out)),
                   r.1.pool_info, r.2)) =
      some (some (30, 999, 0), [w5pool],
            [ExtCall.ft_burn ("ctok") ("alice") 20, ExtCall.ft_transfer ("tokA") ("alice") 20]) := by
  rw [(emergency_withdraw_frame w5state ("alice") 0 0 20 999 w5pool
      { transaction_type := TransactionType.Staking, amount := 50, time := 0, paid_out := 0 }
      rfl rfl (by decide)).1]
  rfl

/-- C6 witness: withdrawing the full position at time 500, before
`end_time = 1000`, succeeds with no reward settled. -/
theorem withdraw_emergency_route_witness :
    (withdraw w5state ("alice") 0 0 50 500).map
        (fun r => ((r.1.user_info 0 ("alice"))[0]?.map (fun p => (p.amount, p.paid_out)), r.2)) =
      some (some (0, 0),
            [ExtCall.ft_burn ("ctok") ("alice") 50, ExtCall.ft_transfer ("tokA") ("alice") 50]) := by
  rw [withdraw_emergency_route w5state ("alice") 0 0 50 500 w5pool
      { transaction_type := TransactionType.Staking, amount := 50, time := 0, paid_out := 0 }
      rfl (by decide) rfl (by decide)]
  rfl


/-- C9 witness: creating a staking pool whose `start_time` equals its
`end_time` aborts. -/
theorem create_pool_spec_witness :
    create_pool new true badPool PoolType.Staking = none :=
  (create_pool_spec new true badPool PoolType.Staking).1 (by decide) (by decide)

/-- C7 counterexample: the claim "aborts unless [Borrow position,
`repay_amount` within principal, `amount ≥ repay_amount + interest`]" is
false as stated: in this state all three conditions hold (Borrow position of
100, repayment 50, interest 0, incoming amount 50), yet the call aborts
because the supplied token does not match the pool's token. -/
theorem internal_repay_extra_abort_cex :
    (loanStateA.user_info 0 ("bob"))[0]?.map (fun p => p.transaction_type) =
        some TransactionType.Borrow ∧
    (loanStateA.user_info 0 ("bob"))[0]?.map (fun p => decide (50 ≤ p.amount)) = some true ∧
    calculate_interest loanStateA ("bob") 0 0 50 0 = some 0 ∧ 50 + 0 ≤ 50 ∧
    internal_repay loanStateA ("bob") 0 0 ("other") 50 50 0 = none :=
  ⟨rfl, rfl, rfl, by decide, rfl⟩

/-- C7 witness: a concrete successful repayment of 50 out of a 100-token
borrow position; principal drops to 50 and both loan counters drop by the
full incoming amount 60. -/
theorem internal_repay_spec_witness :
    (internal_repay loanStateA ("bob") 0 0 ("tok") 60 50 7).map
        (fun s1 => ((s1.user_info 0 ("bob"))[0]?.map (fun p => (p.amount, p.time)),
                    s1.pool_info[0]?.map (fun q => q.funds.loaned_balance),
                    s1.total_user_amount_borrowed 0 ("bob"))) =
      some (some (50, 7), some 40, 40) := by
  rw [((internal_repay_spec loanStateA ("bob") 0 0 ("tok") 60 50 7 loanPoolA
      { transaction_type := TransactionType.Borrow, amount := 100, time := 0, paid_out := 0 }
      0 rfl rfl rfl).2 rfl rfl rfl (by decide) (by decide) (by decide) (by decide)).1]
  rfl

/-- C8 witness: scenario D of the specification — message `staking:0`
returns code 1, `borrow:0:0:50` returns code 2, `swap:0` aborts. -/
theorem ft_on_transfer_spec_witness :
    ft_on_transfer loanStateA ("u") 5 ("swap:0") ("tok") 0 = none ∧
    (ft_on_transfer loanStateA ("alice") 50 ("staking:0") ("tok") 3).map (fun r => r.2.2) = some 1 ∧
    (ft_on_transfer loanStateA ("bob") 60 ("borrow:0:0:50") ("tok") 7).map (fun r => r.2.2) = some 2 := by
  refine ⟨?_, ?_, ?_⟩
  · exact (ft_on_transfer_spec loanStateA ("u") 5 ("swap:0") ("tok") 0).2.2.1 ("swap") rfl
      (by decide) (by decide)
  · rw [(ft_on_transfer_spec loanStateA ("alice") 50 ("staking:0") ("tok") 3).1 ("0") 0 rfl rfl rfl]
    rfl
  · rw [(ft_on_transfer_spec loanStateA ("bob") 60 ("borrow:0:0:50") ("tok") 7).2.1
      "0" "0" "50" 0 0 50 rfl rfl rfl rfl rfl rfl rfl]
    rfl

/-- C3: the claim is refuted at this input, exposing a bug in the code: the
clamped `_duration` computed by `transfer_rewards` is dead code, so the
reward credited to the position is computed from the full elapsed time since
`end_time`.  Here, two full accrual cycles after `end_time` of a staking pool
with `apy = 36500`, the credited reward is 172800000, which exceeds
86400000, the interest accrued over one full accrual cycle (elapsed =
`duration`): the cap the specification describes is not enforced. -/
theorem transfer_rewards_exceeds_one_cycle :
    (transfer_rewards c3state ("alice") 0 0 172800000 86400000 259200000).map
        (fun r => r.2.2) = some 172800000 ∧
    86400000 * c3pool.apy * 100 * c3pool.deposit_limiters.duration /
        (100 * 100 * 365 * ONE_DAY) = 86400000 ∧
    86400000 < 172800000 :=
  ⟨rfl, by decide, by decide⟩



theorem inv_new : Inv new := by
  refine ⟨fun _ => rfl, ?_, ?_, ?_, ?_, ?_, ?_⟩
  · intro pid a p hp; exact absurd hp (List.not_mem_nil p)
  · intro pool hp; exact absurd hp (List.not_mem_nil pool)
  · intro pid a; simp [new]
  · intro pid a h; simp [new] at h
  · intro pid
    have : {a : String | new.is_pool_user pid a = true} = ∅ := by
      ext a; simp [new]
    rw [this]; exact Set.finite_empty
  · intro pid pool h; simp [new] at h

theorem setFlag_true_users_self (s : Contract) (pid : Nat) (a : String) :
    {b : String | (setFlag s pid a true).is_pool_user pid b = true} =
      insert a {b : String | s.is_pool_user pid b = true} := by
  ext b
  by_cases hb : b = a <;> simp [setFlag, hb]

theorem setFlag_false_users_self (s : Contract) (pid : Nat) (a : String) :
    {b : String | (setFlag s pid a false).is_pool_user pid b = true} =
      {b : String | s.is_pool_user pid b = true} \ {a} := by
  ext b
  by_cases hb : b = a <;> simp [setFlag, hb]

theorem setFlag_users_other (s : Contract) (pid : Nat) (a : String) (v : Bool) (p : Nat)
    (hp : ¬ p = pid) :
    {b : String | (setFlag s pid a v).is_pool_user p b = true} =
      {b : String | s.is_pool_user p b = true} := by
  ext b
  simp [setFlag, hp]

theorem inv_set_pool_paused (s : Contract) (o : Bool) (pid : Nat) (flag : Bool)
    (s1 : Contract) (hInv : Inv s) (h : set_pool_paused s o pid flag = some s1) : Inv s1 := by
  unfold set_pool_paused at h
  split at h
  · exact Option.noConfusion h
  cases hpool : s.pool_info[pid]? with
  | none => rw [hpool] at h; exact Option.noConfusion h
  | some pool =>
    rw [hpool] at h
    cases h
    have hlt : pid < s.pool_info.length := by
      have := List.getElem?_eq_some.mp hpool
      exact this.1
    refine ⟨hInv.wl_none, hInv.all_staking, ?_, hInv.flag_iff, ?_, hInv.users_fin, ?_⟩
    · intro q hq
      rcases List.mem_or_eq_of_mem_set hq with hq | hq
      · exact hInv.loaned_zero q hq
      · subst hq
        exact hInv.loaned_zero pool (List.getElem?_mem hpool)
    · intro p a hf
      have := hInv.flag_valid p a hf
      simpa [setPool, List.length_set] using this
    · intro p q hq
      by_cases hp : p = pid
      · subst hp
        rw [show (setPool s p { pool with paused := flag }).pool_info =
              s.pool_info.set p { pool with paused := flag } from rfl,
            List.getElem?_set_eq_of_lt _ hlt] at hq
        cases hq
        exact hInv.unique_card p pool hpool
      · rw [show (setPool s pid { pool with paused := flag }).pool_info =
              s.pool_info.set pid { pool with paused := flag } from rfl,
            List.getElem?_set_ne (fun hc => hp hc.symm)] at hq
        exact hInv.unique_card p q hq

theorem whitelist_none_of_inv (s : Contract) (o : Bool) (pid : Nat) (user : String)
    (status : Bool) (hInv : Inv s) : whitelist s o pid user status = none := by
  unfold whitelist
  split
  · rfl
  · cases hpool : s.pool_info[pid]? with
    | none => simp only [hpool]
    | some pool =>
      simp only [hpool, hInv.wl_none]
      split <;> rfl

theorem borrow_none_of_inv (s : Contract) (a : String) (pid amount now : Nat)
    (hInv : Inv s) : borrow s a pid amount now = none := by
  unfold borrow
  rw [hInv.wl_none]


theorem inv_create_pool (s : Contract) (o : Bool) (info : PoolInfo) (pt : PoolType)
    (s1 : Contract) (hInv : Inv s) (h : create_pool s o info pt = some s1) : Inv s1 := by
  unfold create_pool at h
  split at h
  · exact Option.noConfusion h
  split at h
  · exact Option.noConfusion h
  cases h
  refine ⟨hInv.wl_none, hInv.all_staking, ?_, hInv.flag_iff, ?_, hInv.users_fin, ?_⟩
  · intro q hq
    rcases List.mem_append.mp hq with hq | hq
    · exact hInv.loaned_zero q hq
    · rw [List.mem_singleton.mp hq]
  · intro p a hf
    have h1 := hInv.flag_valid p a hf
    simp only [List.length_append, List.length_cons, List.length_nil]
    omega
  · intro p q hq
    by_cases hp : p < s.pool_info.length
    · rw [List.getElem?_append_left hp] at hq
      exact hInv.unique_card p q hq
    · rcases Nat.lt_or_ge p (s.pool_info.length + 1) with h1 | h1
      · have hpe : p = s.pool_info.length := by omega
        subst hpe
        rw [List.getElem?_append_right (le_refl _), Nat.sub_self] at hq
        cases hq
        have hempty : {a : String | s.is_pool_user s.pool_info.length a = true} = ∅ := by
          ext a
          simp only [Set.mem_setOf_eq, Set.mem_empty_iff_false, iff_false]
          intro hf
          exact absurd (hInv.flag_valid _ _ hf) (lt_irrefl _)
        show (0 : Nat) = _
        rw [hempty, Set.ncard_empty]
      · rw [List.getElem?_append_right (by omega)] at hq
        rw [List.getElem?_eq_none (by simp; omega)] at hq
        exact Option.noConfusion hq

theorem inv_edit_pool (s : Contract) (o : Bool) (pid : Nat) (info : PoolInfo)
    (s1 : Contract) (hInv : Inv s) (h : edit_pool s o pid info = some s1) : Inv s1 := by
  unfold edit_pool at h
  split at h
  · exact Option.noConfusion h
  cases hpool : s.pool_info[pid]? with
  | none => rw [hpool] at h; exact Option.noConfusion h
  | some pool =>
    rw [hpool] at h
    cases h
    have hlt : pid < s.pool_info.length := (List.getElem?_eq_some.mp hpool).1
    refine ⟨hInv.wl_none, hInv.all_staking, ?_, hInv.flag_iff, ?_, hInv.users_fin, ?_⟩
    · intro q hq
      rcases List.mem_or_eq_of_mem_set hq with hq | hq
      · exact hInv.loaned_zero q hq
      · rw [hq]
        exact hInv.loaned_zero pool (List.getElem?_mem hpool)
    · intro p a hf
      have := hInv.flag_valid p a hf
      simpa [setPool, List.length_set] using this
    · intro p q hq
      by_cases hp : p = pid
      · subst hp
        rw [show (setPool s p _).pool_info = s.pool_info.set p _ from rfl,
            List.getElem?_set_eq_of_lt _ hlt] at hq
        cases hq
        exact hInv.unique_card p pool hpool
      · rw [show (setPool s pid _).pool_info = s.pool_info.set pid _ from rfl,
            List.getElem?_set_ne (fun hc => hp hc.symm)] at hq
        exact hInv.unique_card p q hq

theorem inv_recover_token (s : Contract) (o : Bool) (cur tok : String) (amount : Nat)
    (r : Contract × List ExtCall) (hInv : Inv s)
    (h : recover_token s o cur tok amount = some r) : Inv r.1 := by
  unfold recover_token at h
  split at h
  · exact Option.noConfusion h
  cases h
  exact hInv


theorem inv_deposit (s : Contract) (staker : String) (pid : Nat) (tok : String)
    (amount now : Nat) (r : Contract × List ExtCall) (hInv : Inv s)
    (h : internal_deposit_and_stake s staker pid tok amount now = some r) : Inv r.1 := by
  unfold internal_deposit_and_stake at h
  cases hpool : s.pool_info[pid]? with
  | none => rw [hpool] at h; exact Option.noConfusion h
  | some pool =>
    simp only [hpool] at h
    split at h
    · exact Option.noConfusion h
    split at h
    · exact Option.noConfusion h
    split at h
    · exact Option.noConfusion h
    split at h
    · exact Option.noConfusion h
    split at h
    · exact Option.noConfusion h
    cases h
    have hlt : pid < s.pool_info.length := (List.getElem?_eq_some.mp hpool).1
    show Inv (setFlag _ pid staker true)
    constructor
    · exact hInv.wl_none
    · intro p a q hq
      by_cases hpa : p = pid ∧ a = staker
      · obtain ⟨h1, h2⟩ := hpa
        subst h1; subst h2
        simp only [setFlag, setPool, setStaked, setUserList, if_pos (And.intro rfl rfl)] at hq
        rcases List.mem_append.mp hq with hq | hq
        · exact hInv.all_staking _ _ _ hq
        · rw [List.mem_singleton.mp hq]
      · simp only [setFlag, setPool, setStaked, setUserList, if_neg hpa] at hq
        exact hInv.all_staking _ _ _ hq
    · intro q hq
      simp only [setFlag, setPool, setStaked, setUserList] at hq
      rcases List.mem_or_eq_of_mem_set hq with hq | hq
      · exact hInv.loaned_zero q hq
      · rw [hq]
        exact hInv.loaned_zero pool (List.getElem?_mem hpool)
    · intro p a
      by_cases hpa : p = pid ∧ a = staker
      · obtain ⟨h1, h2⟩ := hpa
        subst h1; subst h2
        simp only [setFlag, setPool, setStaked, setUserList, if_pos (And.intro rfl rfl)]
        simp
      · simp only [setFlag, setPool, setStaked, setUserList, if_neg hpa]
        exact hInv.flag_iff p a
    · intro p a hf
      simp only [setFlag, setPool, setStaked, setUserList, List.length_set]
      by_cases hpa : p = pid ∧ a = staker
      · exact hpa.1 ▸ hlt
      · simp only [setFlag, setPool, setStaked, setUserList, if_neg hpa] at hf
        exact hInv.flag_valid p a hf
    · intro p
      by_cases hp : p = pid
      · subst hp
        rw [setFlag_true_users_self]
        exact Set.Finite.insert staker (hInv.users_fin p)
      · rw [setFlag_users_other _ _ _ _ _ hp]
        exact hInv.users_fin p
    · intro p q hq
      simp only [setFlag, setPool, setStaked, setUserList] at hq
      by_cases hp : p = pid
      · subst hp
        rw [List.getElem?_set_eq_of_lt _ hlt] at hq
        cases hq
        rw [setFlag_true_users_self]
        show _ = (insert staker {b : String | s.is_pool_user p b = true}).ncard
        by_cases hw : s.is_pool_user p staker = true
        · rw [Set.insert_eq_self.mpr (show staker ∈ {b : String | s.is_pool_user p b = true} from hw)]
          show (if s.is_pool_user p staker = true then pool.unique_users
                else pool.unique_users + 1) = _
          rw [if_pos hw]
          exact hInv.unique_card p pool hpool
        · have hnm : staker ∉ {b : String | s.is_pool_user p b = true} := hw
          rw [Set.ncard_insert_of_not_mem hnm (hInv.users_fin p)]
          show (if s.is_pool_user p staker = true then pool.unique_users
                else pool.unique_users + 1) = _
          rw [if_neg hw, hInv.unique_card p pool hpool]
      · rw [List.getElem?_set_ne (fun hc => hp hc.symm)] at hq
        rw [setFlag_users_other _ _ _ _ _ hp]
        exact hInv.unique_card p q hq


theorem inv_set_position (s : Contract) (pid : Nat) (a : String) (index : Nat)
    (pos pos1 : UserInfo) (hpos : (s.user_info pid a)[index]? = some pos)
    (hty : pos1.transaction_type = pos.transaction_type) (hInv : Inv s) :
    Inv (setUserList s pid a ((s.user_info pid a).set index pos1)) := by
  have hne : ¬ s.user_info pid a = [] := by
    intro hc
    rw [hc] at hpos
    simp at hpos
  constructor
  · exact hInv.wl_none
  · intro p b q hq
    by_cases hpb : p = pid ∧ b = a
    · obtain ⟨h1, h2⟩ := hpb
      subst h1; subst h2
      simp only [setUserList, if_pos (And.intro rfl rfl)] at hq
      rcases List.mem_or_eq_of_mem_set hq with hq | hq
      · exact hInv.all_staking _ _ _ hq
      · rw [hq, hty]
        exact hInv.all_staking _ _ _ (List.getElem?_mem hpos)
    · simp only [setUserList, if_neg hpb] at hq
      exact hInv.all_staking _ _ _ hq
  · exact hInv.loaned_zero
  · intro p b
    by_cases hpb : p = pid ∧ b = a
    · obtain ⟨h1, h2⟩ := hpb
      subst h1; subst h2
      have hbase := hInv.flag_iff p b
      simpa [setUserList, List.set_eq_nil_iff] using hbase
    · simp only [setUserList, if_neg hpb]
      exact hInv.flag_iff p b
  · exact fun p b hf => hInv.flag_valid p b hf
  · exact hInv.users_fin
  · exact hInv.unique_card

theorem inv_setStaked (s : Contract) (pid : Nat) (a : String) (v : Nat) (hInv : Inv s) :
    Inv (setStaked s pid a v) :=
  ⟨hInv.wl_none, hInv.all_staking, hInv.loaned_zero, hInv.flag_iff, hInv.flag_valid,
   hInv.users_fin, hInv.unique_card⟩

theorem inv_setPool_keep (s : Contract) (pid : Nat) (pool pool1 : PoolInfo)
    (hpool : s.pool_info[pid]? = some pool)
    (hl : pool1.funds.loaned_balance = pool.funds.loaned_balance)
    (hu : pool1.unique_users = pool.unique_users) (hInv : Inv s) :
    Inv (setPool s pid pool1) := by
  have hlt : pid < s.pool_info.length := (List.getElem?_eq_some.mp hpool).1
  constructor
  · exact hInv.wl_none
  · exact hInv.all_staking
  · intro q hq
    simp only [setPool] at hq
    rcases List.mem_or_eq_of_mem_set hq with hq | hq
    · exact hInv.loaned_zero q hq
    · rw [hq, hl]
      exact hInv.loaned_zero pool (List.getElem?_mem hpool)
  · exact hInv.flag_iff
  · intro p b hf
    simp only [setPool, List.length_set]
    exact hInv.flag_valid p b hf
  · exact hInv.users_fin
  · intro p q hq
    simp only [setPool] at hq
    by_cases hp : p = pid
    · subst hp
      rw [List.getElem?_set_eq_of_lt _ hlt] at hq
      cases hq
      rw [hu]
      exact hInv.unique_card p pool hpool
    · rw [List.getElem?_set_ne (fun hc => hp hc.symm)] at hq
      exact hInv.unique_card p q hq

theorem inv_emergency_withdraw (s : Contract) (a : String) (pid index amount now : Nat)
    (r : Contract × List ExtCall) (hInv : Inv s)
    (h : emergency_withdraw s a pid index amount now = some r) : Inv r.1 := by
  unfold emergency_withdraw at h
  cases hpool : s.pool_info[pid]? with
  | none => rw [hpool] at h; exact Option.noConfusion h
  | some pool =>
    simp only [hpool] at h
    cases hpos : (s.user_info pid a)[index]? with
    | none => rw [hpos] at h; exact Option.noConfusion h
    | some pos =>
      simp only [hpos] at h
      cases hsub : subChecked pos.amount amount with
      | none => rw [hsub] at h; exact Option.noConfusion h
      | some amt =>
        rw [hsub] at h
        cases h
        exact inv_set_position s pid a index pos _ hpos rfl hInv

theorem inv_transfer_rewards (s : Contract) (a : String) (pid index duration amount now : Nat)
    (t : Contract × List ExtCall × Nat) (hInv : Inv s)
    (h : transfer_rewards s a pid index duration amount now = some t) : Inv t.1 := by
  unfold transfer_rewards at h
  cases hci : calculate_interest s a pid index amount now with
  | none => rw [hci] at h; exact Option.noConfusion h
  | some reward =>
    simp only [hci] at h
    cases hpool : s.pool_info[pid]? with
    | none => rw [hpool] at h; exact Option.noConfusion h
    | some pool =>
      simp only [hpool] at h
      cases hpos : (s.user_info pid a)[index]? with
      | none => rw [hpos] at h; exact Option.noConfusion h
      | some pos =>
        simp only [hpos] at h
        split at h
        · exact Option.noConfusion h
        cases h
        exact inv_set_position s pid a index pos _ hpos rfl hInv


theorem inv_delete_finish (s : Contract) (a : String) (pid : Nat) (pool : PoolInfo)
    (txs : List UserInfo) (s1 : Contract) (hInv : Inv s)
    (hpool : s.pool_info[pid]? = some pool)
    (hsub : ∀ q, q ∈ txs → q ∈ s.user_info pid a)
    (hne : ¬ s.user_info pid a = [])
    (h : delete_finish s a pid pool txs = some s1) : Inv s1 := by
  have hlt : pid < s.pool_info.length := (List.getElem?_eq_some.mp hpool).1
  have hflag : s.is_pool_user pid a = true := (hInv.flag_iff pid a).mpr hne
  unfold delete_finish at h
  split at h
  next hlen =>
    have htxs : txs = [] := List.length_eq_zero.mp hlen
    cases hsc : subChecked pool.unique_users 1 with
    | none => rw [hsc] at h; exact Option.noConfusion h
    | some u =>
      rw [hsc] at h
      cases h
      unfold subChecked at hsc
      split at hsc
      swap
      · exact Option.noConfusion hsc
      next hone =>
      cases hsc
      constructor
      · exact hInv.wl_none
      · intro p b q hq
        by_cases hpb : p = pid ∧ b = a
        · obtain ⟨hp1, hp2⟩ := hpb
          subst hp1; subst hp2
          simp only [setFlag, setUserList, setPool, if_pos (And.intro rfl rfl)] at hq
          exact hInv.all_staking _ _ _ (hsub q hq)
        · simp only [setFlag, setUserList, setPool, if_neg hpb] at hq
          exact hInv.all_staking _ _ _ hq
      · intro q hq
        simp only [setFlag, setUserList, setPool] at hq
        rcases List.mem_or_eq_of_mem_set hq with hq | hq
        · exact hInv.loaned_zero q hq
        · rw [hq]
          exact hInv.loaned_zero pool (List.getElem?_mem hpool)
      · intro p b
        by_cases hpb : p = pid ∧ b = a
        · obtain ⟨hp1, hp2⟩ := hpb
          subst hp1; subst hp2
          simp only [setFlag, setUserList, setPool, if_pos (And.intro rfl rfl)]
          simp [htxs]
        · simp only [setFlag, setUserList, setPool, if_neg hpb]
          exact hInv.flag_iff p b
      · intro p b hf
        simp only [setFlag, setUserList, setPool, List.length_set]
        by_cases hpb : p = pid ∧ b = a
        · exact hpb.1 ▸ hlt
        · simp only [setFlag, setUserList, setPool, if_neg hpb] at hf
          exact hInv.flag_valid p b hf
      · intro p
        by_cases hp : p = pid
        · subst hp
          rw [setFlag_false_users_self]
          exact Set.Finite.diff (hInv.users_fin p) _
        · rw [setFlag_users_other _ _ _ _ _ hp]
          exact hInv.users_fin p
      · intro p q hq
        simp only [setFlag, setUserList, setPool] at hq
        by_cases hp : p = pid
        · subst hp
          rw [List.getElem?_set_eq_of_lt _ hlt] at hq
          cases hq
          rw [setFlag_false_users_self]
          show _ = ({b : String | s.is_pool_user p b = true} \ {a}).ncard
          have hmem : a ∈ {b : String | s.is_pool_user p b = true} := hflag
          rw [Set.ncard_diff_singleton_of_mem hmem (hInv.users_fin p)]
          show pool.unique_users - 1 = _
          rw [hInv.unique_card p pool hpool]
        · rw [List.getElem?_set_ne (fun hc => hp hc.symm)] at hq
          rw [setFlag_users_other _ _ _ _ _ hp]
          exact hInv.unique_card p q hq
  next hlen =>
    cases h
    constructor
    · exact hInv.wl_none
    · intro p b q hq
      by_cases hpb : p = pid ∧ b = a
      · obtain ⟨hp1, hp2⟩ := hpb
        subst hp1; subst hp2
        simp only [setUserList, if_pos (And.intro rfl rfl)] at hq
        exact hInv.all_staking _ _ _ (hsub q hq)
      · simp only [setUserList, if_neg hpb] at hq
        exact hInv.all_staking _ _ _ hq
    · exact hInv.loaned_zero
    · intro p b
      by_cases hpb : p = pid ∧ b = a
      · obtain ⟨hp1, hp2⟩ := hpb
        subst hp1; subst hp2
        simp only [setUserList, if_pos (And.intro rfl rfl)]
        have htne : ¬ txs = [] := by
          intro hc
          rw [hc] at hlen
          exact hlen rfl
        constructor
        · intro _
          exact htne
        · intro _
          exact hflag
      · simp only [setUserList, if_neg hpb]
        exact hInv.flag_iff p b
    · exact fun p b hf => hInv.flag_valid p b hf
    · exact hInv.users_fin
    · exact hInv.unique_card

theorem inv_delete (s : Contract) (a : String) (pid index : Nat) (s1 : Contract)
    (hInv : Inv s) (h : _delete_stake_if_empty s a pid index = some s1) : Inv s1 := by
  unfold _delete_stake_if_empty at h
  cases hpool : s.pool_info[pid]? with
  | none => rw [hpool] at h; exact Option.noConfusion h
  | some pool =>
    simp only [hpool] at h
    cases hpos : (s.user_info pid a)[index]? with
    | none => rw [hpos] at h; exact Option.noConfusion h
    | some pos =>
      simp only [hpos] at h
      have hne : ¬ s.user_info pid a = [] := by
        intro hc
        rw [hc] at hpos
        simp at hpos
      split at h
      · cases hlast : (s.user_info pid a).getLast? with
        | none => rw [hlast] at h; exact Option.noConfusion h
        | some lastPos =>
          rw [hlast] at h
          refine inv_delete_finish s a pid pool _ s1 hInv hpool ?_ hne h
          intro q hq
          have hq2 := (List.dropLast_sublist _).mem hq
          rcases List.mem_or_eq_of_mem_set hq2 with hq2 | hq2
          · exact hq2
          · rw [hq2]
            exact List.mem_of_mem_getLast? hlast
      · refine inv_delete_finish s a pid pool _ s1 hInv hpool ?_ hne h
        exact fun q hq => hq


theorem internal_repay_none_of_inv (s : Contract) (borrower : String) (pid index : Nat)
    (token_id : String) (amount repay_amount now : Nat) (hInv : Inv s) :
    internal_repay s borrower pid index token_id amount repay_amount now = none := by
  unfold internal_repay
  cases hci : calculate_interest s borrower pid index repay_amount now with
  | none => rfl
  | some interest =>
    simp only [hci]
    cases hpool : s.pool_info[pid]? with
    | none => rfl
    | some pool =>
      simp only [hpool]
      cases hpos : (s.user_info pid borrower)[index]? with
      | none => rfl
      | some pos =>
        simp only [hpos]
        have hst : pos.transaction_type = TransactionType.Staking :=
          hInv.all_staking _ _ _ (List.getElem?_mem hpos)
        have hnb : ¬ pos.transaction_type = TransactionType.Borrow := by
          rw [hst]
          intro hc
          exact TransactionType.noConfusion hc
        split
        · rfl
        split <;> rfl

theorem inv_withdraw (s : Contract) (a : String) (pid index amount now : Nat)
    (r : Contract × List ExtCall) (hInv : Inv s)
    (h : withdraw s a pid index amount now = some r) : Inv r.1 := by
  unfold withdraw at h
  cases hpool : s.pool_info[pid]? with
  | none => rw [hpool] at h; exact Option.noConfusion h
  | some pool =>
    simp only [hpool] at h
    split at h
    · exact inv_emergency_withdraw s a pid index amount now r hInv h
    · cases hpos0 : (s.user_info pid a)[index]? with
      | none => rw [hpos0] at h; exact Option.noConfusion h
      | some pos0 =>
        simp only [hpos0] at h
        split at h
        · exact Option.noConfusion h
        split at h
        · exact Option.noConfusion h
        split at h
        · exact Option.noConfusion h
        cases htr : transfer_rewards s a pid index
            (now - pool.deposit_limiters.end_time) amount now with
        | none => simp only [htr] at h; exact Option.noConfusion h
        | some t =>
          obtain ⟨s1, eff1, claimable⟩ := t
          simp only [htr] at h
          have hInv1 : Inv s1 :=
            inv_transfer_rewards s a pid index _ amount now _ hInv htr
          cases hpool1 : s1.pool_info[pid]? with
          | none => simp only [hpool1] at h; exact Option.noConfusion h
          | some pool1 =>
            simp only [hpool1] at h
            cases hpos1 : (s1.user_info pid a)[index]? with
            | none => simp only [hpos1] at h; exact Option.noConfusion h
            | some pos1 =>
              simp only [hpos1] at h
              cases hs1 : subChecked pos1.amount amount with
              | none => simp only [hs1] at h; exact Option.noConfusion h
              | some amt =>
                cases hs2 : subChecked (s1.total_user_amount_staked pid a) amount with
                | none => simp only [hs1, hs2] at h; exact Option.noConfusion h
                | some staked =>
                  cases hs3 : subChecked pool1.funds.balance amount with
                  | none => simp only [hs1, hs2, hs3] at h; exact Option.noConfusion h
                  | some bal =>
                    simp only [hs1, hs2, hs3] at h
                    cases hdel : _delete_stake_if_empty
                        (setPool (setStaked (setUserList s1 pid a
                          ((s1.user_info pid a).set index
                            { pos1 with amount := amt, time := now })) pid a staked) pid
                          { pool1 with funds := { pool1.funds with balance := bal } })
                        a pid index with
                    | none => simp only [hdel] at h; exact Option.noConfusion h
                    | some s5 =>
                      simp only [hdel] at h
                      cases h
                      have hInv2 : Inv (setUserList s1 pid a
                          ((s1.user_info pid a).set index
                            { pos1 with amount := amt, time := now })) :=
                        inv_set_position s1 pid a index pos1 _ hpos1 rfl hInv1
                      have hInv3 := inv_setStaked _ pid a staked hInv2
                      have hInv4 : Inv (setPool (setStaked (setUserList s1 pid a
                          ((s1.user_info pid a).set index
                            { pos1 with amount := amt, time := now })) pid a staked) pid
                          { pool1 with funds := { pool1.funds with balance := bal } }) :=
                        inv_setPool_keep _ pid pool1 _ hpool1 rfl rfl hInv3
                      exact inv_delete _ a pid index s5 hInv4 hdel

theorem inv_claim_quarterly (s : Contract) (a : String) (pid index now : Nat)
    (r : Contract × List ExtCall) (hInv : Inv s)
    (h : claim_quarterly_payout s a pid index now = some r) : Inv r.1 := by
  unfold claim_quarterly_payout at h
  cases hpool : s.pool_info[pid]? with
  | none => rw [hpool] at h; exact Option.noConfusion h
  | some pool =>
    simp only [hpool] at h
    split at h
    · exact Option.noConfusion h
    split at h
    · exact Option.noConfusion h
    split at h
    · exact Option.noConfusion h
    split at h
    · exact Option.noConfusion h
    cases hpos : (s.user_info pid a)[index]? with
    | none => rw [hpos] at h; exact Option.noConfusion h
    | some pos =>
      simp only [hpos] at h
      cases htr : transfer_rewards s a pid index
          (clamp_duration pool (now - pool.deposit_limiters.end_time)) pos.amount now with
      | none => simp only [htr] at h; exact Option.noConfusion h
      | some t =>
        obtain ⟨s1, eff, claimable⟩ := t
        simp only [htr] at h
        cases h
        exact inv_transfer_rewards s a pid index _ pos.amount now _ hInv htr

theorem inv_ft_on_transfer (s : Contract) (sender : String) (amount : Nat)
    (msg tok : String) (now : Nat) (r : Contract × List ExtCall × Nat) (hInv : Inv s)
    (h : ft_on_transfer s sender amount msg tok now = some r) : Inv r.1 := by
  unfold ft_on_transfer at h
  cases h1 : (splitOnChar (':') msg)[1]? with
  | none => simp only [h1] at h; exact Option.noConfusion h
  | some m1 =>
    simp only [h1] at h
    cases hp : rustParseUInt 128 m1 with
    | none => rw [hp] at h; exact Option.noConfusion h
    | some pid =>
      simp only [hp] at h
      cases h0 : (splitOnChar (':') msg)[0]? with
      | none => rw [h0] at h; exact Option.noConfusion h
      | some m0 =>
        simp only [h0] at h
        split at h
        · cases hd : internal_deposit_and_stake s sender pid tok amount now with
          | none => simp only [hd] at h; exact Option.noConfusion h
          | some d =>
            obtain ⟨s1, eff⟩ := d
            simp only [hd] at h
            cases h
            exact inv_deposit s sender pid tok amount now _ hInv hd
        · split at h
          · cases h2 : (splitOnChar (':') msg)[2]? with
            | none => rw [h2] at h; exact Option.noConfusion h
            | some m2 =>
              simp only [h2] at h
              cases hp2 : rustParseUInt 32 m2 with
              | none => rw [hp2] at h; exact Option.noConfusion h
              | some index =>
                simp only [hp2] at h
                cases h3 : (splitOnChar (':') msg)[3]? with
                | none => rw [h3] at h; exact Option.noConfusion h
                | some m3 =>
                  simp only [h3] at h
                  cases hp3 : rustParseUInt 128 m3 with
                  | none => rw [hp3] at h; exact Option.noConfusion h
                  | some repay_amount =>
                    simp only [hp3] at h
                    rw [internal_repay_none_of_inv s sender pid index tok amount
                        repay_amount now hInv] at h
                    exact Option.noConfusion h
          · exact Option.noConfusion h

theorem inv_of_reachable (s : Contract) (h : Reachable s) : Inv s := by
  induction h with
  | refl => exact inv_new
  | tail _ step ih =>
    cases step with
    | step_set_paused => rename_i hop; exact inv_set_pool_paused _ _ _ _ _ ih hop
    | step_whitelist =>
      rename_i hop
      rw [whitelist_none_of_inv _ _ _ _ _ ih] at hop
      exact Option.noConfusion hop
    | step_create_pool => rename_i hop; exact inv_create_pool _ _ _ _ _ ih hop
    | step_edit_pool => rename_i hop; exact inv_edit_pool _ _ _ _ _ ih hop
    | step_recover_token => rename_i hop; exact inv_recover_token _ _ _ _ _ _ ih hop
    | step_emergency_withdraw =>
      rename_i hop
      exact inv_emergency_withdraw _ _ _ _ _ _ _ ih hop
    | step_withdraw => rename_i hop; exact inv_withdraw _ _ _ _ _ _ _ ih hop
    | step_borrow =>
      rename_i hop
      rw [borrow_none_of_inv _ _ _ _ _ ih] at hop
      exact Option.noConfusion hop
    | step_claim_quarterly => rename_i hop; exact inv_claim_quarterly _ _ _ _ _ _ ih hop
    | step_ft_on_transfer => rename_i hop; exact inv_ft_on_transfer _ _ _ _ _ _ _ ih hop




theorem reachState_reachable : Reachable reachState :=
  Relation.ReflTransGen.single
    (Step.step_create_pool new true w5pool PoolType.Staking reachState rfl)

/-- C1: for every reachable contract state, every pool satisfies
`loaned_balance ≤ balance`.  Reachable states are closed under every
balance-changing operation (deposit-and-stake, withdraw, borrow, repay), so
each of those operations preserves the relation.  (In fact the invariant
proved by `inv_of_reachable` shows `loaned_balance = 0` in every reachable
state, because `borrow` aborts unconditionally — see C2.) -/
theorem loaned_le_balance_reachable (s : Contract) (h : Reachable s) (pool : PoolInfo)
    (hmem : pool ∈ s.pool_info) : pool.funds.loaned_balance ≤ pool.funds.balance := by
  rw [(inv_of_reachable s h).loaned_zero pool hmem]
  exact Nat.zero_le _

/-- C1 witness: the state reached from `new` by one `create_pool` call
contains a pool, and the theorem applies to it. -/
theorem loaned_le_balance_reachable_witness :
    Reachable reachState ∧ reachPool ∈ reachState.pool_info ∧
    reachPool.funds.loaned_balance ≤ reachPool.funds.balance :=
  ⟨reachState_reachable, List.mem_singleton.mpr rfl,
   loaned_le_balance_reachable reachState reachState_reachable reachPool
     (List.mem_singleton.mpr rfl)⟩

/-- C2: in every state reachable from `new()`, every call to `whitelist`
aborts — the `is_whitelisted` map is never populated by any operation, and
`whitelist` reads an existing entry with `unwrap` — and consequently every
call to `borrow`, which reads the caller's whitelist entry with `unwrap`,
also aborts. -/
theorem whitelist_borrow_abort_reachable (s : Contract) (h : Reachable s) :
    (∀ o pid user status, whitelist s o pid user status = none) ∧
    (∀ a pid amount now, borrow s a pid amount now = none) :=
  ⟨fun o pid user status => whitelist_none_of_inv s o pid user status (inv_of_reachable s h),
   fun a pid amount now => borrow_none_of_inv s a pid amount now (inv_of_reachable s h)⟩

/-- C2 witness: the theorem applied at the initial state itself. -/
theorem whitelist_borrow_abort_reachable_witness :
    whitelist new true 0 ("alice") true = none ∧ borrow new ("alice") 0 5 0 = none :=
  ⟨(whitelist_borrow_abort_reachable new Relation.ReflTransGen.refl).1 true 0 ("alice") true,
   (whitelist_borrow_abort_reachable new Relation.ReflTransGen.refl).2 ("alice") 0 5 0⟩





theorem c4s3_reachable : Reachable c4s3 :=
  Relation.ReflTransGen.tail
    (Relation.ReflTransGen.tail (Relation.ReflTransGen.single
      (Step.step_create_pool new true w5pool PoolType.Staking reachState rfl))
      (Step.step_ft_on_transfer reachState ("alice") 50 ("staking:0") ("tokA") 0
        (c4r2.getD (new, [], 0)) rfl))
    (Step.step_emergency_withdraw c4s2 ("alice") 0 0 50 500 (c4r3.getD (new, [])) rfl)

/-- C4 counterexample: in the reachable state obtained by creating a staking
pool, depositing 50 for one account, and emergency-withdrawing the full 50
before `end_time`, the pool's `unique_users` is 1 although no account holds a
position with `amount > 0` (the zeroed position is left in the list because
`emergency_withdraw` never runs cleanup), so `unique_users` is not the
number of accounts with at least one open position. -/
theorem unique_users_open_positions_cex :
    Reachable c4s3 ∧
    c4s3.pool_info[0]?.map (fun q => q.unique_users) = some 1 ∧
    {a : String | ∃ p ∈ c4s3.user_info 0 a, 0 < p.amount} = ∅ ∧
    ¬ (1 = Set.ncard (∅ : Set String)) := by
  refine ⟨c4s3_reachable, rfl, ?_, by simp⟩
  ext a
  simp only [Set.mem_setOf_eq, Set.mem_empty_iff_false, iff_false, not_exists]
  intro p hp
  obtain ⟨hp, hpos⟩ := hp
  by_cases ha : a = "alice"
  · subst ha
    have he : c4s3.user_info 0 ("alice") =
        [{ transaction_type := TransactionType.Staking, amount := 0, time := 500,
           paid_out := 0 }] := rfl
    rw [he] at hp
    rw [List.mem_singleton.mp hp] at hpos
    simp at hpos
  · have he : c4s3.user_info 0 a = [] := by
      show (if (0 = 0 ∧ a = "alice") then _
            else if (0 = 0 ∧ a = "alice") then _
            else ([] : List UserInfo)) = []
      rw [if_neg (fun hc => ha hc.2), if_neg (fun hc => ha hc.2)]
    rw [he] at hp
    exact absurd hp (List.not_mem_nil p)

/-- C4 (amended): for every reachable state and every pool, `unique_users`
equals the number of distinct accounts whose position list for that pool is
nonempty — equivalently (second conjunct) whose membership flag is set.
Zero-amount positions left behind by `emergency_withdraw` keep their account
counted, which is why the count is of nonempty lists, not of open
(`amount > 0`) positions. -/
theorem unique_users_matches_membership (s : Contract) (h : Reachable s) (pid : Nat)
    (pool : PoolInfo) (hpool : s.pool_info[pid]? = some pool) :
    pool.unique_users = Set.ncard {a : String | s.is_pool_user pid a = true} ∧
    (∀ a, s.is_pool_user pid a = true ↔ ¬ s.user_info pid a = []) :=
  ⟨(inv_of_reachable s h).unique_card pid pool hpool,
   fun a => (inv_of_reachable s h).flag_iff pid a⟩

/-- C4 witness: the theorem applied to the freshly created pool, whose
`unique_users` is zero and whose membership set is empty. -/
theorem unique_users_matches_membership_witness :
    reachPool.unique_users = Set.ncard {a : String | reachState.is_pool_user 0 a = true} :=
  (unique_users_matches_membership reachState reachState_reachable 0 reachPool rfl).1

end StakingPool
